import Mathlib

/- Verification development for the MDP SparseModel component of the
   repository (include/AIToolbox/MDP/SparseModel.hpp). Real values are
   embedded as rationals and machine indices as Nat. Sparse matrices are
   embedded as total functions where an absent entry is 0, matching the
   lookup semantics of the component (absence is zero). Operations that can
   throw std::invalid_argument are embedded with Except, or as a pair of the
   resulting object state and a Bool recording whether a throw happened
   (the throwing entry points validate before writing, so the object state
   at throw time is the original state). -/

namespace AIMDP

/-- The single fixed numeric tolerance used for every approximate
comparison. The spec fixes one epsilon in the range 1e-10 to 1e-6, used
consistently; we use 1e-6. -/
def equalToleranceSmall : ℚ := 1 / 1000000

/-- Modelled from the spec: the tolerance comparison helper (AIToolbox
checkEqualSmall, whose implementation is not under src): true when the two
values differ by at most the small tolerance (absolute difference). -/
def checkEqualSmall (a b : ℚ) : Bool := decide (|a - b| ≤ equalToleranceSmall)

/-- Modelled from the spec: negation of checkEqualSmall, as used throughout
the header to test that a value is non-negligible. -/
def checkDifferentSmall (a b : ℚ) : Bool := ! checkEqualSmall a b

/-- Error kind for every throwing entry point: the component raises a single
InvalidArgument-kind failure. -/
inductive MDPError where
  | invalidArgument : MDPError
deriving DecidableEq

/-- Sum of f over indices 0 .. n-1, the embedding of a row sum loop. -/
def rowSum (n : Nat) (f : Nat → ℚ) : ℚ := ((List.range n).map f).sum

/-- The sparsification applied when copying a dense value into a sparse
table: values within tolerance of zero are not stored (hence read back
as 0). -/
def sparsify (p : ℚ) : ℚ := if checkDifferentSmall 0 p then p else 0

/-- The SparseModel data: state count S, action count A, discount, the
transition table indexed as transitions_ a s s1 and the reward table
indexed as rewards_ s a. Absent sparse entries are the value 0. -/
structure SparseModel where
  S : Nat
  A : Nat
  discount_ : ℚ
  transitions_ : Nat → Nat → Nat → ℚ
  rewards_ : Nat → Nat → ℚ

namespace SparseModel

/-- Modelled from the spec: accessor getS (implementation not under src). -/
def getS (m : SparseModel) : Nat := m.S

/-- Modelled from the spec: accessor getA (implementation not under src). -/
def getA (m : SparseModel) : Nat := m.A

/-- Modelled from the spec: accessor getDiscount (implementation not under
src). -/
def getDiscount (m : SparseModel) : ℚ := m.discount_

/-- Modelled from the spec: getTransitionProbability performs a sparse
lookup returning 0 when the entry is absent; in the functional embedding
this is exactly application of the stored table. -/
def getTransitionProbability (m : SparseModel) (s a s1 : Nat) : ℚ :=
  m.transitions_ a s s1

/-- Modelled from the spec: getExpectedReward returns the stored aggregate
expected reward for (s, a); the successor argument is ignored because the
reward table collapses the successor dimension. -/
def getExpectedReward (m : SparseModel) (s a _s1 : Nat) : ℚ :=
  m.rewards_ s a

/-- Modelled from the spec: setDiscount fails with InvalidArgument when the
discount is outside [0, 1], otherwise replaces the stored scalar. The
returned Bool records whether the call threw; on a throw the model is the
unmodified original. -/
def setDiscount (m : SparseModel) (d : ℚ) : SparseModel × Bool :=
  if d < 0 ∨ 1 < d then (m, true)
  else ({ m with discount_ := d }, false)

/-- Modelled from the spec: the basic constructor (S, A, discount) builds
the degenerate model with a probability-1 self loop for every in-range
state and action, all rewards 0, and validates the discount to [0, 1],
failing with InvalidArgument otherwise. -/
def mkDefault (s a : Nat) (d : ℚ) : Except MDPError SparseModel :=
  if d < 0 ∨ 1 < d then .error .invalidArgument
  else .ok
    { S := s, A := a, discount_ := d
      transitions_ := fun ac st s1 => if ac < a ∧ st < s ∧ s1 = st then 1 else 0
      rewards_ := fun _ _ => 0 }

/-- Modelled from the spec: isTerminal evaluates the derived property that
for every action the only nonzero transition out of s is the probability-1
self loop. -/
def isTerminal (m : SparseModel) (s : Nat) : Bool :=
  (List.range m.A).all fun a =>
    decide (m.getTransitionProbability s a s = 1) &&
    ((List.range m.S).all fun s1 =>
      decide (s1 = s) || decide (m.getTransitionProbability s a s1 = 0))

/-- Modelled from the spec: the sparse-table overload of
setTransitionFunction. Its implementation is not under src (only the
declaration); the spec documents the validator as intentionally skipped by
this overload, the simplex invariant being the caller responsibility, so
the modelled operation installs the table unconditionally. The Bool records
whether the call threw. -/
def setTransitionFunctionSparse (m : SparseModel) (t : Nat → Nat → Nat → ℚ) :
    SparseModel × Bool :=
  ({ m with transitions_ := t }, false)

end SparseModel

/-- Modelled from the spec: the probability validator (AIToolbox
isProbability, not under src) over a dense container addressed as
t s a s1 with target dimensions S, A, S: every value must lie in [0, 1]
and every (s, a) row must sum to 1 within the small tolerance. -/
def isProbability (S A : Nat) (t : Nat → Nat → Nat → ℚ) : Bool :=
  (List.range S).all fun s =>
    (List.range A).all fun a =>
      ((List.range S).all fun s1 =>
        decide (0 ≤ t s a s1) && decide (t s a s1 ≤ 1)) &&
      checkEqualSmall 1 (rowSum S (fun s1 => t s a s1))

namespace SparseModel

/-- The dense-container overload of setTransitionFunction
(SparseModel.hpp lines 415-431): validate the whole container first and
throw InvalidArgument without touching anything on failure; otherwise
clear each per-action table and repopulate it with the non-negligible
values only. The Bool records whether the call threw. -/
def setTransitionFunction (m : SparseModel) (t : Nat → Nat → Nat → ℚ) :
    SparseModel × Bool :=
  if ¬ isProbability m.S m.A t then (m, true)
  else
    ({ m with transitions_ := fun a s s1 =>
        if a < m.A ∧ s < m.S ∧ s1 < m.S then sparsify (t s a s1) else 0 }, false)

/-- The inner successor loop of the dense setRewardFunction
(SparseModel.hpp lines 438-440): accumulate r s a s1 times the stored
transition probability over successors 0 .. n-1. -/
def newRewLoop (r : Nat → Nat → Nat → ℚ) (tr : Nat → Nat → Nat → ℚ)
    (s a : Nat) : Nat → ℚ
  | 0 => 0
  | n + 1 => newRewLoop r tr s a n + r s a n * tr a s n

/-- The dense-container overload of setRewardFunction (SparseModel.hpp
lines 433-447): zero the reward table, then for every in-range (s, a)
accumulate the probability-weighted reward over successors against the
transition probabilities already stored, storing the total only when it is
non-negligible. No validation is performed; the operation is total. -/
def setRewardFunction (m : SparseModel) (r : Nat → Nat → Nat → ℚ) :
    SparseModel :=
  { m with rewards_ := fun s a =>
      if s < m.S ∧ a < m.A then
        let newRew := newRewLoop r m.transitions_ s a m.S
        if checkDifferentSmall newRew 0 then newRew else 0
      else 0 }

end SparseModel

/-- A conversion source for the model-copy constructor: any object exposing
the five-operation read contract (getS, getA, getDiscount,
getTransitionProbability as transProb s a s1, getExpectedReward as
expReward s a s1). -/
structure MDPSource where
  S : Nat
  A : Nat
  discount : ℚ
  transProb : Nat → Nat → Nat → ℚ
  expReward : Nat → Nat → Nat → ℚ

namespace SparseModel

/-- The innermost successor loop of the model-copy constructor
(SparseModel.hpp lines 397-405) for a fixed (s, a), over successors
0 .. n-1: read p, throw InvalidArgument at the first p outside [0, 1],
insert non-negligible p into the row, and accumulate r times p into the
reward slot whenever r is non-negligible. Returns the filled row and the
accumulated reward. -/
def copyRowLoop (m : MDPSource) (s a : Nat) :
    Nat → Except MDPError ((Nat → ℚ) × ℚ)
  | 0 => .ok (fun _ => 0, 0)
  | n + 1 =>
    match copyRowLoop m s a n with
    | .error e => .error e
    | .ok (row, rew) =>
      let p := m.transProb s a n
      if p < 0 ∨ 1 < p then .error .invalidArgument
      else
        let r := m.expReward s a n
        .ok (fun s1 => if s1 = n then (if checkDifferentSmall 0 p then p else 0)
              else row s1,
            if checkDifferentSmall 0 r then rew + r * p else rew)

/-- One (s, a) row of the model-copy constructor: run the successor loop
over all of S, then re-validate that the filled row sums to 1 within the
tolerance, throwing InvalidArgument on violation (SparseModel.hpp lines
406-407). -/
def copyRow (m : MDPSource) (s a : Nat) : Except MDPError ((Nat → ℚ) × ℚ) :=
  match copyRowLoop m s a m.S with
  | .error e => .error e
  | .ok (row, rew) =>
    if checkDifferentSmall 1 (rowSum m.S row) then .error .invalidArgument
    else .ok (row, rew)

/-- The inner action loop of the model-copy constructor for a fixed s,
over actions 0 .. n-1: fill each row, assembling the per-action slice of
the transition table and the per-action rewards for this s. -/
def copyLoopA (m : MDPSource) (s : Nat) :
    Nat → Except MDPError ((Nat → Nat → ℚ) × (Nat → ℚ))
  | 0 => .ok (fun _ _ => 0, fun _ => 0)
  | n + 1 =>
    match copyLoopA m s n with
    | .error e => .error e
    | .ok (ta, ra) =>
      match copyRow m s n with
      | .error e => .error e
      | .ok (row, rew) =>
        .ok (fun a => if a = n then row else ta a,
            fun a => if a = n then rew else ra a)

/-- The outer state loop of the model-copy constructor, over states
0 .. n-1, assembling the full transition table (indexed action, from,
to) and the full reward table (indexed from, action). -/
def copyLoopS (m : MDPSource) :
    Nat → Except MDPError ((Nat → Nat → Nat → ℚ) × (Nat → Nat → ℚ))
  | 0 => .ok (fun _ _ _ => 0, fun _ _ => 0)
  | n + 1 =>
    match copyLoopS m n with
    | .error e => .error e
    | .ok (t, r) =>
      match copyLoopA m n m.A with
      | .error e => .error e
      | .ok (ta, ra) =>
        .ok (fun a s => if s = n then ta a else t a s,
            fun s => if s = n then ra else r s)

/-- The model-copy constructor (SparseModel.hpp lines 389-413): dimensions
and zeroed tables are set up, the discount is validated through setDiscount
(throwing InvalidArgument outside [0, 1]), then every (s, a) row is filled
and re-validated by the loops above. -/
def ofModel (m : MDPSource) : Except MDPError SparseModel :=
  if m.discount < 0 ∨ 1 < m.discount then .error .invalidArgument
  else
    match copyLoopS m m.S with
    | .error e => .error e
    | .ok (t, r) => .ok { S := m.S, A := m.A, discount_ := m.discount,
                          transitions_ := t, rewards_ := r }

/-- View of a SparseModel through the five-operation read contract, the
way the model-copy constructor consumes another SparseModel. -/
def toSource (m : SparseModel) : MDPSource :=
  { S := m.getS, A := m.getA, discount := m.getDiscount
    transProb := fun s a s1 => m.getTransitionProbability s a s1
    expReward := fun s a s1 => m.getExpectedReward s a s1 }

/-- The zero-initialized model the dense constructor starts from: member
initialization builds empty sparse tables of the right dimensions. -/
def initModel (s a : Nat) : SparseModel :=
  { S := s, A := a, discount_ := 1
    transitions_ := fun _ _ _ => 0, rewards_ := fun _ _ => 0 }

/-- The dense-container constructor (SparseModel.hpp lines 379-387):
dimensions and zeroed tables, then setDiscount, setTransitionFunction and
setRewardFunction in that order; a throw from either setter propagates as
the construction failure. -/
def ofDense (s a : Nat) (t r : Nat → Nat → Nat → ℚ) (d : ℚ) :
    Except MDPError SparseModel :=
  if ((initModel s a).setDiscount d).2 then .error .invalidArgument
  else
    if (((initModel s a).setDiscount d).1.setTransitionFunction t).2 then
      .error .invalidArgument
    else
      .ok ((((initModel s a).setDiscount d).1.setTransitionFunction t).1.setRewardFunction r)

/-- Modelled from the spec: the inverse-transform selection loop of
sampleSR (implementation not under src), over the nonzero entries of the
row in successor order: accumulate the probabilities and select the first
successor whose cumulative probability exceeds the draw; when the
accumulated total never exceeds the draw, the last nonzero successor is
selected as the defensive fallback. -/
def sampleLoop (u : ℚ) : ℚ → List (Nat × ℚ) → Nat
  | _, [] => 0
  | acc, (s1, p) :: rest =>
    let acc' := acc + p
    if u < acc' then s1
    else
      match rest with
      | [] => s1
      | _ :: _ => sampleLoop u acc' rest

/-- The nonzero entries of transition row (a, s), in increasing successor
order, paired with their stored probabilities: the iteration space of the
sparse row. -/
def nonzeroRow (m : SparseModel) (s a : Nat) : List (Nat × ℚ) :=
  ((List.range m.S).filter fun s1 => m.transitions_ a s s1 ≠ 0).map
    fun s1 => (s1, m.transitions_ a s s1)

/-- Modelled from the spec: sampleSR (implementation not under src) draws
one uniform value u in [0, 1) from the private generator — embedded here
as an explicit argument, the only state the call touches — selects a
successor by inverse-transform sampling over the nonzero row entries, and
pairs it with the aggregate reward stored at (s, a). -/
def sampleSR (m : SparseModel) (s a : Nat) (u : ℚ) : Nat × ℚ :=
  (sampleLoop u 0 (nonzeroRow m s a), m.rewards_ s a)

end SparseModel

/-- Discriminator for the embedded throwing operations: true exactly when
the operation raised InvalidArgument. -/
def isErr {α : Type} (e : Except MDPError α) : Bool :=
  match e with
  | .error _ => true
  | .ok _ => false

/-- A placeholder model used as the fallback of okOr. -/
def emptyModel : SparseModel :=
  { S := 0, A := 0, discount_ := 1
    transitions_ := fun _ _ _ => 0, rewards_ := fun _ _ => 0 }

/-- The model held in a successful construction result, with a fallback for
the error case. -/
def okOr (e : Except MDPError SparseModel) (dflt : SparseModel) : SparseModel :=
  match e with
  | .ok b => b
  | .error _ => dflt

/-- The sparse row the model-copy constructor ends up storing for (s, a):
each in-range successor holds the sparsified probability read from the
source. -/
def sparsifiedRow (m : MDPSource) (s a : Nat) : Nat → ℚ :=
  fun s1 => if s1 < m.S then sparsify (m.transProb s a s1) else 0

/-- The reward value the model-copy constructor accumulates into slot
(s, a): the sum over successors of r times p, each contribution gated on r
being non-negligible. -/
def copiedReward (m : MDPSource) (s a : Nat) : ℚ :=
  rowSum m.S (fun s1 => if checkDifferentSmall 0 (m.expReward s a s1) = true
    then m.expReward s a s1 * m.transProb s a s1 else 0)

/-- The full transition table the model-copy constructor stores. -/
def copiedTransitions (m : MDPSource) : Nat → Nat → Nat → ℚ :=
  fun a s s1 => if s < m.S ∧ a < m.A then sparsifiedRow m s a s1 else 0

/-- The full reward table the model-copy constructor stores. -/
def copiedRewards (m : MDPSource) : Nat → Nat → ℚ :=
  fun s a => if s < m.S ∧ a < m.A then copiedReward m s a else 0

/-- The conditions the model-copy constructor verifies for one (s, a) row:
every probability read lies in [0, 1], and the filled sparse row sums to 1
within the tolerance. -/
def RowOK (m : MDPSource) (s a : Nat) : Prop :=
  (∀ s1, s1 < m.S → 0 ≤ m.transProb s a s1 ∧ m.transProb s a s1 ≤ 1) ∧
  checkDifferentSmall 1 (rowSum m.S (sparsifiedRow m s a)) = false

/-- The reward accumulation rule exactly as claim C3 words it (a reference
definition for comparison against the code): the contribution r times p
enters the (s, a) aggregate if and only if that product is
non-negligible. -/
def claim3Reward (m : MDPSource) (s a : Nat) : ℚ :=
  rowSum m.S (fun s1 =>
    if checkDifferentSmall 0 (m.expReward s a s1 * m.transProb s a s1) = true
    then m.expReward s a s1 * m.transProb s a s1 else 0)

/-- Concrete base model: 3 states, 1 action, empty tables. -/
def mBase3 : SparseModel :=
  { S := 3, A := 1, discount_ := 1
    transitions_ := fun _ _ _ => 0, rewards_ := fun _ _ => 0 }

/-- Concrete base model: 2 states, 1 action, empty tables. -/
def mBase2 : SparseModel :=
  { S := 2, A := 1, discount_ := 1
    transitions_ := fun _ _ _ => 0, rewards_ := fun _ _ => 0 }

/-- A dense transition container whose first row holds two entries exactly
at the tolerance (dropped by sparsification) plus one bulk entry; the
remaining rows are identity self loops. Every value lies in [0, 1] and
every row sums to exactly 1. -/
def tDrift : Nat → Nat → Nat → ℚ := fun s _a s1 =>
  if s = 0 then
    (if s1 = 0 then 1 / 1000000 else if s1 = 1 then 1 / 1000000
      else if s1 = 2 then 1 - 2 / 1000000 else 0)
  else if s1 = s then 1 else 0

/-- The identity dense transition container. -/
def tId2 : Nat → Nat → Nat → ℚ := fun s _a s1 => if s1 = s then 1 else 0

/-- A dense container whose rows sum to one half: fails validation. -/
def tHalfRow : Nat → Nat → Nat → ℚ := fun _s _a s1 => if s1 = 0 then 1 / 2 else 0

/-- A conversion source with perfect probabilities but discount 2. -/
def srcBadDisc : MDPSource :=
  { S := 1, A := 1, discount := 2
    transProb := fun _ _ _ => 1, expReward := fun _ _ _ => 0 }

/-- A conversion source holding a negligible transition probability paired
with a non-negligible reward at the triple (0, 0, 0). -/
def srcTiny : MDPSource :=
  { S := 2, A := 1, discount := 1
    transProb := fun s _ s1 =>
      if s = 0 then (if s1 = 0 then 1 / 10000000 else 1 - 1 / 10000000)
      else if s1 = 1 then 1 else 0
    expReward := fun s _ s1 => if s = 0 ∧ s1 = 0 then 1 else 0 }

/-- A well-formed one-state conversion source with reward 5. -/
def srcW : MDPSource :=
  { S := 1, A := 1, discount := 1
    transProb := fun _ _ _ => 1, expReward := fun _ _ _ => 5 }

/-- A valid sparse model carrying a large reward on a row whose stored
probabilities sum to slightly less than 1. -/
def mBig : SparseModel :=
  { S := 2, A := 1, discount_ := 1
    transitions_ := fun a s s1 =>
      if a = 0 then
        (if s = 0 then
          (if s1 = 0 then 1 / 2 else if s1 = 1 then 1 / 2 - 9 / 10000000 else 0)
          else if s = 1 ∧ s1 = 1 then 1 else 0)
      else 0
    rewards_ := fun s a => if s = 0 ∧ a = 0 then 10000000 else 0 }

/-- A tiny valid sparse model: one state, one action, a probability-1 self
loop, reward 5. -/
def mOne : SparseModel :=
  { S := 1, A := 1, discount_ := 1
    transitions_ := fun a s s1 => if a = 0 ∧ s = 0 ∧ s1 = 0 then 1 else 0
    rewards_ := fun _ _ => 5 }

/-- One-state model with reward 7, used to exercise the sampler. -/
def mSamp : SparseModel :=
  { S := 1, A := 1, discount_ := 1
    transitions_ := fun _ _ _ => 1, rewards_ := fun _ _ => 7 }

/-- One-state model with a stored self loop, used to exercise the dense
reward setter. -/
def mRew : SparseModel :=
  { S := 1, A := 1, discount_ := 1
    transitions_ := fun _ _ _ => 1, rewards_ := fun _ _ => 0 }

/-- A constant dense reward container. -/
def rThree : Nat → Nat → Nat → ℚ := fun _ _ _ => 3

theorem equalToleranceSmall_pos : 0 < equalToleranceSmall := by
  norm_num [equalToleranceSmall]

theorem checkEqualSmall_iff {a b : ℚ} :
    checkEqualSmall a b = true ↔ |a - b| ≤ equalToleranceSmall := by
  simp [checkEqualSmall]

theorem checkDifferentSmall_iff {a b : ℚ} :
    checkDifferentSmall a b = true ↔ equalToleranceSmall < |a - b| := by
  simp [checkDifferentSmall, checkEqualSmall]

theorem checkDifferentSmall_eq_false_iff {a b : ℚ} :
    checkDifferentSmall a b = false ↔ |a - b| ≤ equalToleranceSmall := by
  simp [checkDifferentSmall, checkEqualSmall]

theorem rowSum_zero (f : Nat → ℚ) : rowSum 0 f = 0 := rfl

theorem rowSum_succ (n : Nat) (f : Nat → ℚ) :
    rowSum (n + 1) f = rowSum n f + f n := by
  simp [rowSum, List.range_succ]

theorem rowSum_congr {n : Nat} {f g : Nat → ℚ} (h : ∀ i, i < n → f i = g i) :
    rowSum n f = rowSum n g := by
  induction n with
  | zero => rfl
  | succ k ih =>
    rw [rowSum_succ, rowSum_succ, ih (fun i hi => h i (Nat.lt_succ_of_lt hi)),
      h k (Nat.lt_succ_self k)]

theorem rowSum_nonneg {n : Nat} {f : Nat → ℚ} (h : ∀ i, i < n → 0 ≤ f i) :
    0 ≤ rowSum n f := by
  induction n with
  | zero => simp [rowSum]
  | succ k ih =>
    rw [rowSum_succ]
    have h1 := ih (fun i hi => h i (Nat.lt_succ_of_lt hi))
    have h2 := h k (Nat.lt_succ_self k)
    linarith

theorem rowSum_abs_sub_le {n : Nat} {f g : Nat → ℚ} {c : ℚ}
    (h : ∀ i, i < n → |f i - g i| ≤ c) :
    |rowSum n f - rowSum n g| ≤ n * c := by
  induction n with
  | zero => simp [rowSum]
  | succ k ih =>
    have h1 := ih (fun i hi => h i (Nat.lt_succ_of_lt hi))
    have h2 := h k (Nat.lt_succ_self k)
    rw [rowSum_succ, rowSum_succ]
    have he : rowSum k f + f k - (rowSum k g + g k)
        = (rowSum k f - rowSum k g) + (f k - g k) := by ring
    rw [he]
    calc |(rowSum k f - rowSum k g) + (f k - g k)|
        ≤ |rowSum k f - rowSum k g| + |f k - g k| := abs_add _ _
      _ ≤ k * c + c := add_le_add h1 h2
      _ = (k + 1 : Nat) * c := by push_cast; ring

theorem rowSum_mul {n : Nat} {c : ℚ} {f : Nat → ℚ} :
    rowSum n (fun i => c * f i) = c * rowSum n f := by
  induction n with
  | zero => simp [rowSum]
  | succ k ih => rw [rowSum_succ, rowSum_succ, ih]; ring

theorem rowSum_zero_fun {n : Nat} : rowSum n (fun _ => (0 : ℚ)) = 0 := by
  induction n with
  | zero => rfl
  | succ k ih => rw [rowSum_succ, ih]; ring

theorem sparsify_zero : sparsify 0 = 0 := by
  simp [sparsify]

theorem sparsify_of_small {p : ℚ} (h : |p| ≤ equalToleranceSmall) :
    sparsify p = 0 := by
  have hc : checkDifferentSmall 0 p = false := by
    rw [checkDifferentSmall_eq_false_iff]
    simpa using h
  simp [sparsify, hc]

theorem sparsify_eq_or (p : ℚ) : sparsify p = p ∨ sparsify p = 0 := by
  unfold sparsify
  by_cases h : checkDifferentSmall 0 p = true
  · exact Or.inl (by simp [h])
  · exact Or.inr (by simp [h])

theorem sparsify_abs_sub_le (p : ℚ) : |sparsify p - p| ≤ equalToleranceSmall := by
  unfold sparsify
  by_cases h : checkDifferentSmall 0 p = true
  · simp [h]
    exact le_of_lt equalToleranceSmall_pos
  · have hb : checkDifferentSmall 0 p = false := by
      simpa using h
    rw [checkDifferentSmall_eq_false_iff] at hb
    simp [h]
    simpa [zero_sub, abs_neg] using hb

theorem sparsify_nonneg {p : ℚ} (h : 0 ≤ p) : 0 ≤ sparsify p := by
  rcases sparsify_eq_or p with h1 | h1 <;> rw [h1]
  exact h

theorem sparsify_le_one {p : ℚ} (h : p ≤ 1) : sparsify p ≤ 1 := by
  rcases sparsify_eq_or p with h1 | h1 <;> rw [h1]
  · exact h
  · exact zero_le_one

theorem sparsify_eq_self {p : ℚ} (h : p ≠ 0 → checkDifferentSmall 0 p = true) :
    sparsify p = p := by
  by_cases hz : p = 0
  · rw [hz, sparsify_zero]
  · simp [sparsify, h hz]

theorem isProbability_iff {S A : Nat} {t : Nat → Nat → Nat → ℚ} :
    isProbability S A t = true ↔
      ∀ s, s < S → ∀ a, a < A →
        ((∀ s1, s1 < S → 0 ≤ t s a s1 ∧ t s a s1 ≤ 1) ∧
          |1 - rowSum S (fun s1 => t s a s1)| ≤ equalToleranceSmall) := by
  simp [isProbability, List.all_eq_true, List.mem_range, checkEqualSmall]

namespace SparseModel

theorem copyRowLoop_ok {m : MDPSource} {s a : Nat} {n : Nat}
    (h : ∀ s1, s1 < n → 0 ≤ m.transProb s a s1 ∧ m.transProb s a s1 ≤ 1) :
    copyRowLoop m s a n = .ok
      (fun s1 => if s1 < n then sparsify (m.transProb s a s1) else 0,
        rowSum n (fun s1 => if checkDifferentSmall 0 (m.expReward s a s1) = true
          then m.expReward s a s1 * m.transProb s a s1 else 0)) := by
  induction n with
  | zero =>
    have hf : (fun s1 : Nat => if s1 < 0 then sparsify (m.transProb s a s1) else 0)
        = fun _ => (0 : ℚ) := by
      funext s1; simp
    rw [hf]
    simp [copyRowLoop, rowSum]
  | succ k ih =>
    have hk := h k (Nat.lt_succ_self k)
    have hcond : ¬ (m.transProb s a k < 0 ∨ 1 < m.transProb s a k) := by
      push_neg
      exact hk
    unfold copyRowLoop
    rw [ih (fun i hi => h i (Nat.lt_succ_of_lt hi))]
    simp only [hcond, if_neg, ite_false]
    congr 1
    refine Prod.ext ?_ ?_
    · funext s1
      by_cases h1 : s1 = k
      · subst h1
        simp [sparsify, Nat.lt_succ_self]
      · have : s1 < k + 1 ↔ s1 < k := by omega
        simp [h1, this]
    · rw [rowSum_succ]
      by_cases hr : checkDifferentSmall 0 (m.expReward s a k) = true
      · simp [hr]
      · simp [hr]

theorem copyRowLoop_error {m : MDPSource} {s a : Nat} {n : Nat}
    (h : ∃ s1, s1 < n ∧ (m.transProb s a s1 < 0 ∨ 1 < m.transProb s a s1)) :
    copyRowLoop m s a n = .error .invalidArgument := by
  induction n with
  | zero =>
    obtain ⟨s1, hs1, _⟩ := h
    exact absurd hs1 (Nat.not_lt_zero s1)
  | succ k ih =>
    by_cases hbelow : ∃ s1, s1 < k ∧ (m.transProb s a s1 < 0 ∨ 1 < m.transProb s a s1)
    · unfold copyRowLoop
      rw [ih hbelow]
    · have hgood : ∀ s1, s1 < k → 0 ≤ m.transProb s a s1 ∧ m.transProb s a s1 ≤ 1 := by
        intro s1 hs1
        by_contra hc
        rw [not_and_or, not_le, not_le] at hc
        exact hbelow ⟨s1, hs1, hc⟩
      have hkbad : m.transProb s a k < 0 ∨ 1 < m.transProb s a k := by
        obtain ⟨s1, hs1, hb⟩ := h
        have : s1 = k := by
          by_contra hne
          exact hbelow ⟨s1, by omega, hb⟩
        rwa [this] at hb
      unfold copyRowLoop
      rw [copyRowLoop_ok hgood]
      simp [hkbad]

theorem copyRowLoop_full {m : MDPSource} {s a : Nat}
    (h : ∀ s1, s1 < m.S → 0 ≤ m.transProb s a s1 ∧ m.transProb s a s1 ≤ 1) :
    copyRowLoop m s a m.S = .ok (sparsifiedRow m s a, copiedReward m s a) := by
  rw [copyRowLoop_ok h]
  rfl

theorem copyRow_ok {m : MDPSource} {s a : Nat} (h : RowOK m s a) :
    copyRow m s a = .ok (sparsifiedRow m s a, copiedReward m s a) := by
  unfold copyRow
  rw [copyRowLoop_full h.1]
  simp [h.2]

theorem copyRow_error {m : MDPSource} {s a : Nat} (h : ¬ RowOK m s a) :
    copyRow m s a = .error .invalidArgument := by
  unfold RowOK at h
  rw [not_and_or] at h
  by_cases hp : ∀ s1, s1 < m.S → 0 ≤ m.transProb s a s1 ∧ m.transProb s a s1 ≤ 1
  · have hq : checkDifferentSmall 1 (rowSum m.S (sparsifiedRow m s a)) = true := by
      rcases h with h | h
      · exact absurd hp h
      · simpa using h
    unfold copyRow
    rw [copyRowLoop_full hp]
    simp [hq]
  · have hbad : ∃ s1, s1 < m.S ∧ (m.transProb s a s1 < 0 ∨ 1 < m.transProb s a s1) := by
      push_neg at hp
      obtain ⟨s1, hs1, hb⟩ := hp
      by_cases h0 : 0 ≤ m.transProb s a s1
      · exact ⟨s1, hs1, Or.inr (hb h0)⟩
      · exact ⟨s1, hs1, Or.inl (not_le.mp h0)⟩
    unfold copyRow
    rw [copyRowLoop_error hbad]

theorem copyLoopA_ok {m : MDPSource} {s : Nat} {n : Nat}
    (h : ∀ a, a < n → RowOK m s a) :
    copyLoopA m s n = .ok
      (fun a => if a < n then sparsifiedRow m s a else fun _ => 0,
        fun a => if a < n then copiedReward m s a else 0) := by
  induction n with
  | zero =>
    have h1 : (fun a : Nat => if a < 0 then sparsifiedRow m s a else fun _ => (0 : ℚ))
        = fun _ => fun _ => (0 : ℚ) := by
      funext a; simp
    have h2 : (fun a : Nat => if a < 0 then copiedReward m s a else 0)
        = fun _ => (0 : ℚ) := by
      funext a; simp
    rw [h1, h2]
    rfl
  | succ k ih =>
    have hfst : (fun a => if a = k then sparsifiedRow m s k
          else if a < k then sparsifiedRow m s a else fun _ => (0 : ℚ))
        = (fun a => if a < k + 1 then sparsifiedRow m s a else fun _ => (0 : ℚ)) := by
      funext a
      by_cases h1 : a = k
      · subst h1
        simp
      · have h2 : a < k + 1 ↔ a < k := by omega
        simp [h1, h2]
    have hsnd : (fun a => if a = k then copiedReward m s k
          else if a < k then copiedReward m s a else 0)
        = (fun a => if a < k + 1 then copiedReward m s a else 0) := by
      funext a
      by_cases h1 : a = k
      · subst h1
        simp
      · have h2 : a < k + 1 ↔ a < k := by omega
        simp [h1, h2]
    unfold copyLoopA
    rw [ih (fun a ha => h a (Nat.lt_succ_of_lt ha)), copyRow_ok (h k (Nat.lt_succ_self k))]
    exact congrArg Except.ok (Prod.ext hfst hsnd)

theorem copyLoopA_error {m : MDPSource} {s : Nat} {n : Nat}
    (h : ∃ a, a < n ∧ ¬ RowOK m s a) :
    copyLoopA m s n = .error .invalidArgument := by
  induction n with
  | zero =>
    obtain ⟨a, ha, _⟩ := h
    exact absurd ha (Nat.not_lt_zero a)
  | succ k ih =>
    by_cases hbelow : ∃ a, a < k ∧ ¬ RowOK m s a
    · unfold copyLoopA
      rw [ih hbelow]
    · have hgood : ∀ a, a < k → RowOK m s a := by
        intro a ha
        by_contra hc
        exact hbelow ⟨a, ha, hc⟩
      have hkbad : ¬ RowOK m s k := by
        obtain ⟨a, ha, hb⟩ := h
        have : a = k := by
          by_contra hne
          exact hbelow ⟨a, by omega, hb⟩
        rwa [this] at hb
      unfold copyLoopA
      rw [copyLoopA_ok hgood, copyRow_error hkbad]

theorem copyLoopS_ok {m : MDPSource} {n : Nat}
    (h : ∀ s, s < n → ∀ a, a < m.A → RowOK m s a) :
    copyLoopS m n = .ok
      (fun a s => if s < n then (if a < m.A then sparsifiedRow m s a else fun _ => 0)
        else fun _ => 0,
        fun s => if s < n then (fun a => if a < m.A then copiedReward m s a else 0)
          else fun _ => 0) := by
  induction n with
  | zero =>
    have h1 : (fun (a s : Nat) => if s < 0 then
          (if a < m.A then sparsifiedRow m s a else fun _ => (0 : ℚ)) else fun _ => (0 : ℚ))
        = fun _ _ _ => (0 : ℚ) := by
      funext a s; simp
    have h2 : (fun s : Nat => if s < 0 then
          (fun a => if a < m.A then copiedReward m s a else 0) else fun _ => (0 : ℚ))
        = fun _ _ => (0 : ℚ) := by
      funext s; simp
    rw [h1, h2]
    rfl
  | succ k ih =>
    have hfst : (fun a s => if s = k then
            (if a < m.A then sparsifiedRow m k a else fun _ => (0 : ℚ))
          else if s < k then (if a < m.A then sparsifiedRow m s a else fun _ => (0 : ℚ))
            else fun _ => (0 : ℚ))
        = (fun a s => if s < k + 1 then
            (if a < m.A then sparsifiedRow m s a else fun _ => (0 : ℚ))
          else fun _ => (0 : ℚ)) := by
      funext a s
      by_cases h1 : s = k
      · subst h1
        simp
      · have h2 : s < k + 1 ↔ s < k := by omega
        simp [h1, h2]
    have hsnd : (fun s => if s = k then
            (fun a => if a < m.A then copiedReward m k a else 0)
          else if s < k then (fun a => if a < m.A then copiedReward m s a else 0)
            else fun _ => (0 : ℚ))
        = (fun s => if s < k + 1 then
            (fun a => if a < m.A then copiedReward m s a else 0)
          else fun _ => (0 : ℚ)) := by
      funext s
      by_cases h1 : s = k
      · subst h1
        simp
      · have h2 : s < k + 1 ↔ s < k := by omega
        simp [h1, h2]
    unfold copyLoopS
    rw [ih (fun s hs => h s (Nat.lt_succ_of_lt hs)), copyLoopA_ok (h k (Nat.lt_succ_self k))]
    exact congrArg Except.ok (Prod.ext hfst hsnd)

theorem copyLoopS_error {m : MDPSource} {n : Nat}
    (h : ∃ s, s < n ∧ ∃ a, a < m.A ∧ ¬ RowOK m s a) :
    copyLoopS m n = .error .invalidArgument := by
  induction n with
  | zero =>
    obtain ⟨s, hs, _⟩ := h
    exact absurd hs (Nat.not_lt_zero s)
  | succ k ih =>
    by_cases hbelow : ∃ s, s < k ∧ ∃ a, a < m.A ∧ ¬ RowOK m s a
    · unfold copyLoopS
      rw [ih hbelow]
    · have hgood : ∀ s, s < k → ∀ a, a < m.A → RowOK m s a := by
        intro s hs a ha
        by_contra hc
        exact hbelow ⟨s, hs, a, ha, hc⟩
      have hkbad : ∃ a, a < m.A ∧ ¬ RowOK m k a := by
        obtain ⟨s, hs, hb⟩ := h
        have : s = k := by
          by_contra hne
          exact hbelow ⟨s, by omega, hb⟩
        rwa [this] at hb
      unfold copyLoopS
      rw [copyLoopS_ok hgood, copyLoopA_error hkbad]

theorem ofModel_ok {m : MDPSource} (hd : 0 ≤ m.discount ∧ m.discount ≤ 1)
    (h : ∀ s, s < m.S → ∀ a, a < m.A → RowOK m s a) :
    ofModel m = .ok
      { S := m.S, A := m.A, discount_ := m.discount,
        transitions_ := copiedTransitions m, rewards_ := copiedRewards m } := by
  unfold ofModel
  have hcond : ¬ (m.discount < 0 ∨ 1 < m.discount) := by
    push_neg
    exact hd
  rw [if_neg hcond, copyLoopS_ok h]
  have ht : (fun a s => if s < m.S then
        (if a < m.A then sparsifiedRow m s a else fun _ => (0 : ℚ)) else fun _ => (0 : ℚ))
      = copiedTransitions m := by
    funext a s s1
    unfold copiedTransitions
    by_cases hs : s < m.S <;> by_cases ha : a < m.A <;> simp [hs, ha]
  have hr : (fun s => if s < m.S then
        (fun a => if a < m.A then copiedReward m s a else 0) else fun _ => (0 : ℚ))
      = copiedRewards m := by
    funext s a
    unfold copiedRewards
    by_cases hs : s < m.S <;> by_cases ha : a < m.A <;> simp [hs, ha]
  rw [ht, hr]

theorem ofModel_error {m : MDPSource}
    (h : (m.discount < 0 ∨ 1 < m.discount) ∨
      ∃ s, s < m.S ∧ ∃ a, a < m.A ∧ ¬ RowOK m s a) :
    ofModel m = .error .invalidArgument := by
  by_cases hd : m.discount < 0 ∨ 1 < m.discount
  · unfold ofModel
    rw [if_pos hd]
  · have hrows : ∃ s, s < m.S ∧ ∃ a, a < m.A ∧ ¬ RowOK m s a := by
      rcases h with h | h
      · exact absurd h hd
      · exact h
    unfold ofModel
    rw [if_neg hd, copyLoopS_error hrows]

theorem isErr_ofModel_iff {m : MDPSource} :
    isErr (ofModel m) = true ↔
      (m.discount < 0 ∨ 1 < m.discount) ∨
        ∃ s, s < m.S ∧ ∃ a, a < m.A ∧ ¬ RowOK m s a := by
  constructor
  · intro h
    by_contra hc
    rw [not_or] at hc
    obtain ⟨h1, h2⟩ := hc
    have hd : 0 ≤ m.discount ∧ m.discount ≤ 1 := by
      rw [not_or, not_lt, not_lt] at h1
      exact h1
    have hrows : ∀ s, s < m.S → ∀ a, a < m.A → RowOK m s a := by
      intro s hs a ha
      by_contra hr
      exact h2 ⟨s, hs, a, ha, hr⟩
    rw [ofModel_ok hd hrows] at h
    simp [isErr] at h
  · intro h
    rw [ofModel_error h]
    rfl

theorem ofModel_conditions {m : MDPSource} (h : isErr (ofModel m) = false) :
    (0 ≤ m.discount ∧ m.discount ≤ 1) ∧
      ∀ s, s < m.S → ∀ a, a < m.A → RowOK m s a := by
  have hne : ¬ ((m.discount < 0 ∨ 1 < m.discount) ∨
      ∃ s, s < m.S ∧ ∃ a, a < m.A ∧ ¬ RowOK m s a) := by
    intro hc
    rw [← isErr_ofModel_iff] at hc
    rw [h] at hc
    exact Bool.false_ne_true hc
  rw [not_or] at hne
  obtain ⟨h1, h2⟩ := hne
  constructor
  · rw [not_or, not_lt, not_lt] at h1
    exact h1
  · intro s hs a ha
    by_contra hr
    exact h2 ⟨s, hs, a, ha, hr⟩

theorem ofModel_okOr {m : MDPSource} (h : isErr (ofModel m) = false) :
    okOr (ofModel m) emptyModel =
      { S := m.S, A := m.A, discount_ := m.discount,
        transitions_ := copiedTransitions m, rewards_ := copiedRewards m } := by
  obtain ⟨hd, hrows⟩ := ofModel_conditions h
  rw [ofModel_ok hd hrows]
  rfl

theorem setTransitionFunction_invalid {m : SparseModel} {t : Nat → Nat → Nat → ℚ}
    (h : isProbability m.S m.A t = false) :
    m.setTransitionFunction t = (m, true) := by
  unfold setTransitionFunction
  rw [if_pos]
  rw [h]
  exact Bool.false_ne_true

theorem setTransitionFunction_valid {m : SparseModel} {t : Nat → Nat → Nat → ℚ}
    (h : isProbability m.S m.A t = true) :
    m.setTransitionFunction t =
      ({ m with transitions_ := fun a s s1 =>
          if a < m.A ∧ s < m.S ∧ s1 < m.S then sparsify (t s a s1) else 0 }, false) := by
  unfold setTransitionFunction
  rw [if_neg]
  rw [h]
  simp

theorem newRewLoop_eq_rowSum {r tr : Nat → Nat → Nat → ℚ} {s a : Nat} {n : Nat} :
    newRewLoop r tr s a n = rowSum n (fun s1 => r s a s1 * tr a s s1) := by
  induction n with
  | zero => rfl
  | succ k ih => rw [newRewLoop, ih, rowSum_succ]

/-- The bound the sparsification step guarantees for a row that was
validated before sparsification: each stored value stays in [0, 1] and the
stored row sum can drift from 1 by at most the validation tolerance plus
one dropped entry per successor. -/
theorem sparsified_row_bound {S : Nat} {f : Nat → ℚ}
    (hf : ∀ i, i < S → 0 ≤ f i ∧ f i ≤ 1)
    (hsum : |1 - rowSum S f| ≤ equalToleranceSmall) :
    (∀ i, i < S → 0 ≤ sparsify (f i) ∧ sparsify (f i) ≤ 1) ∧
      |rowSum S (fun i => sparsify (f i)) - 1| ≤ (S + 1) * equalToleranceSmall := by
  constructor
  · intro i hi
    exact ⟨sparsify_nonneg (hf i hi).1, sparsify_le_one (hf i hi).2⟩
  · have h1 : |rowSum S (fun i => sparsify (f i)) - rowSum S f|
        ≤ S * equalToleranceSmall :=
      rowSum_abs_sub_le (fun i _ => sparsify_abs_sub_le (f i))
    have h2 : |rowSum S f - 1| ≤ equalToleranceSmall := by
      rwa [abs_sub_comm] at hsum
    calc |rowSum S (fun i => sparsify (f i)) - 1|
        = |(rowSum S (fun i => sparsify (f i)) - rowSum S f) + (rowSum S f - 1)| := by
          ring_nf
      _ ≤ |rowSum S (fun i => sparsify (f i)) - rowSum S f| + |rowSum S f - 1| :=
          abs_add _ _
      _ ≤ S * equalToleranceSmall + equalToleranceSmall := add_le_add h1 h2
      _ = (S + 1) * equalToleranceSmall := by ring

theorem setDiscount_ok {m : SparseModel} {d : ℚ} (hd : ¬ (d < 0 ∨ 1 < d)) :
    m.setDiscount d = ({ m with discount_ := d }, false) := by
  unfold setDiscount
  rw [if_neg hd]

theorem setDiscount_bad {m : SparseModel} {d : ℚ} (hd : d < 0 ∨ 1 < d) :
    m.setDiscount d = (m, true) := by
  unfold setDiscount
  rw [if_pos hd]

theorem ofDense_char {s a : Nat} {t r : Nat → Nat → Nat → ℚ} {d : ℚ}
    (h : isErr (ofDense s a t r d) = false) :
    isProbability s a t = true ∧ ¬ (d < 0 ∨ 1 < d) ∧
      (okOr (ofDense s a t r d) emptyModel).transitions_ =
        fun ac st s1 => if ac < a ∧ st < s ∧ s1 < s then sparsify (t st ac s1) else 0 := by
  by_cases hd : d < 0 ∨ 1 < d
  · exfalso
    unfold ofDense at h
    rw [setDiscount_bad hd] at h
    simp [isErr] at h
  · by_cases hp : isProbability s a t = true
    · refine ⟨hp, hd, ?_⟩
      have hp1 : isProbability
          ({ initModel s a with discount_ := d } : SparseModel).S
          ({ initModel s a with discount_ := d } : SparseModel).A t = true := hp
      unfold ofDense
      rw [setDiscount_ok hd, setTransitionFunction_valid hp1]
      rfl
    · exfalso
      have hp0 : isProbability
          ({ initModel s a with discount_ := d } : SparseModel).S
          ({ initModel s a with discount_ := d } : SparseModel).A t = false := by
        cases hb : isProbability s a t
        · exact hb
        · exact absurd hb hp
      unfold ofDense at h
      rw [setDiscount_ok hd, setTransitionFunction_invalid hp0] at h
      simp [isErr] at h

theorem sampleLoop_mem {u : ℚ} :
    ∀ (l : List (Nat × ℚ)) (acc : ℚ), l ≠ [] →
      sampleLoop u acc l ∈ l.map Prod.fst := by
  intro l
  induction l with
  | nil =>
    intro acc hne
    exact absurd rfl hne
  | cons hd tl ih =>
    intro acc _
    obtain ⟨s1, p⟩ := hd
    unfold sampleLoop
    by_cases hlt : u < acc + p
    · simp [hlt]
    · rw [if_neg hlt]
      cases tl with
      | nil => simp
      | cons hd2 tl2 =>
        have := ih (acc + p) (List.cons_ne_nil hd2 tl2)
        simp only [List.map_cons, List.mem_cons]
        right
        simpa using this

theorem nonzeroRow_map_fst (m : SparseModel) (s a : Nat) :
    (nonzeroRow m s a).map Prod.fst
      = (List.range m.S).filter fun s1 => m.transitions_ a s s1 ≠ 0 := by
  unfold nonzeroRow
  rw [List.map_map]
  have hcomp : (Prod.fst ∘ fun s1 => (s1, m.transitions_ a s s1)) = id := by
    funext s1
    rfl
  rw [hcomp, List.map_id]

theorem nonzeroRow_ne_nil {m : SparseModel} {s a : Nat}
    (h : ∃ s1, s1 < m.S ∧ m.transitions_ a s s1 ≠ 0) :
    nonzeroRow m s a ≠ [] := by
  obtain ⟨s1, hs1, hnz⟩ := h
  have hmem : s1 ∈ (List.range m.S).filter fun s1 => m.transitions_ a s s1 ≠ 0 := by
    rw [List.mem_filter]
    exact ⟨List.mem_range.mpr hs1, by simpa using hnz⟩
  intro hnil
  have := nonzeroRow_map_fst m s a
  rw [hnil] at this
  rw [← this] at hmem
  simp at hmem

end SparseModel

/-- Claim C5: the sparse-table overload of setTransitionFunction performs
no probability validation: for every input table, valid or not, the call
installs the table and does not raise InvalidArgument, the simplex
invariant being the caller responsibility. -/
theorem claim5_theorem (m : SparseModel) (t : Nat → Nat → Nat → ℚ) :
    m.setTransitionFunctionSparse t = ({ m with transitions_ := t }, false) :=
  rfl

/-- Claim C4: whenever a dense transition container fails the probability
validation (some value outside [0, 1] or some row summing to something
farther than the tolerance from 1), the dense setTransitionFunction raises
InvalidArgument and leaves the stored model — transition table, reward
table, S, A and discount — exactly as it was. -/
theorem claim4_theorem (m : SparseModel) (t : Nat → Nat → Nat → ℚ)
    (h : ¬ ∀ s, s < m.S → ∀ a, a < m.A →
      ((∀ s1, s1 < m.S → 0 ≤ t s a s1 ∧ t s a s1 ≤ 1) ∧
        |1 - rowSum m.S (fun s1 => t s a s1)| ≤ equalToleranceSmall)) :
    m.setTransitionFunction t = (m, true) := by
  have hp : isProbability m.S m.A t = false := by
    cases hb : isProbability m.S m.A t
    · rfl
    · exact absurd (isProbability_iff.mp hb) h
  exact SparseModel.setTransitionFunction_invalid hp

/-- Witness for C4: the container whose rows sum to one half is rejected
and the base model is returned untouched. -/
theorem claim4_witness : mBase3.setTransitionFunction tHalfRow = (mBase3, true) :=
  claim4_theorem mBase3 tHalfRow (by
    intro hall
    have h := (hall 0 (by norm_num [mBase3]) 0 (by norm_num [mBase3])).2
    norm_num [mBase3, tHalfRow, rowSum, List.range_succ, equalToleranceSmall,
      abs_div, abs_one] at h)

/-- Claim C6: the dense setRewardFunction stores at each in-range (s, a)
the sum over successors of the container reward times the transition
probability already stored in the model at call time, leaving the entry
implicitly 0 when that sum is within tolerance of zero; the operation is
total, performing no validation of the reward values. -/
theorem claim6_theorem (m : SparseModel) (r : Nat → Nat → Nat → ℚ) (s a : Nat)
    (hs : s < m.S) (ha : a < m.A) :
    (m.setRewardFunction r).rewards_ s a =
      (if checkDifferentSmall
          (rowSum m.S (fun s1 => r s a s1 * m.transitions_ a s s1)) 0 = true
        then rowSum m.S (fun s1 => r s a s1 * m.transitions_ a s s1) else 0) := by
  show (if s < m.S ∧ a < m.A then
      (if checkDifferentSmall (SparseModel.newRewLoop r m.transitions_ s a m.S) 0 = true
        then SparseModel.newRewLoop r m.transitions_ s a m.S else 0) else 0) = _
  rw [if_pos ⟨hs, ha⟩, SparseModel.newRewLoop_eq_rowSum]

/-- Witness for C6 at a one-state model with a stored self loop and the
constant reward container 3. -/
theorem claim6_witness :
    (mRew.setRewardFunction rThree).rewards_ 0 0 =
      (if checkDifferentSmall
          (rowSum mRew.S (fun s1 => rThree 0 0 s1 * mRew.transitions_ 0 0 s1)) 0 = true
        then rowSum mRew.S (fun s1 => rThree 0 0 s1 * mRew.transitions_ 0 0 s1) else 0) :=
  claim6_theorem mRew rThree 0 0 Nat.zero_lt_one Nat.zero_lt_one

/-- Claim C8: the basic constructor with a discount in [0, 1] produces the
degenerate model with a probability-1 self loop for every in-range state
under every in-range action, zero everywhere else, all expected rewards 0,
and every in-range state terminal; a discount outside [0, 1] raises
InvalidArgument. -/
theorem claim8_theorem (s a : Nat) (d : ℚ) :
    ((0 ≤ d ∧ d ≤ 1) →
      isErr (SparseModel.mkDefault s a d) = false ∧
      (∀ st, st < s → ∀ ac, ac < a →
        (okOr (SparseModel.mkDefault s a d) emptyModel).getTransitionProbability st ac st = 1) ∧
      (∀ st ac s1, s1 ≠ st →
        (okOr (SparseModel.mkDefault s a d) emptyModel).getTransitionProbability st ac s1 = 0) ∧
      (∀ st ac s1,
        (okOr (SparseModel.mkDefault s a d) emptyModel).getExpectedReward st ac s1 = 0) ∧
      (∀ st, st < s →
        (okOr (SparseModel.mkDefault s a d) emptyModel).isTerminal st = true)) ∧
    ((d < 0 ∨ 1 < d) → SparseModel.mkDefault s a d = .error .invalidArgument) := by
  constructor
  · intro hd
    have hcond : ¬ (d < 0 ∨ 1 < d) := by
      push_neg
      exact hd
    have hmk : SparseModel.mkDefault s a d = .ok
        { S := s, A := a, discount_ := d
          transitions_ := fun ac st s1 => if ac < a ∧ st < s ∧ s1 = st then 1 else 0
          rewards_ := fun _ _ => 0 } := by
      unfold SparseModel.mkDefault
      rw [if_neg hcond]
    rw [hmk]
    refine ⟨rfl, ?_, ?_, ?_, ?_⟩
    · intro st hst ac hac
      show (if ac < a ∧ st < s ∧ st = st then (1 : ℚ) else 0) = 1
      rw [if_pos ⟨hac, hst, rfl⟩]
    · intro st ac s1 hne
      show (if ac < a ∧ st < s ∧ s1 = st then (1 : ℚ) else 0) = 0
      rw [if_neg]
      intro hc
      exact hne hc.2.2
    · intro st ac s1
      rfl
    · intro st hst
      simp only [SparseModel.isTerminal, List.all_eq_true, List.mem_range,
        Bool.and_eq_true, Bool.or_eq_true, decide_eq_true_eq]
      intro ac hac
      constructor
      · show (if ac < a ∧ st < s ∧ st = st then (1 : ℚ) else 0) = 1
        rw [if_pos ⟨hac, hst, rfl⟩]
      · intro s1 _
        by_cases he : s1 = st
        · exact Or.inl he
        · refine Or.inr ?_
          show (if ac < a ∧ st < s ∧ s1 = st then (1 : ℚ) else 0) = 0
          rw [if_neg]
          intro hc
          exact he hc.2.2
  · intro hd
    unfold SparseModel.mkDefault
    rw [if_pos hd]

/-- Witness for C8 at S = 3, A = 2, discount 1: the construction succeeds. -/
theorem claim8_witness : isErr (SparseModel.mkDefault 3 2 1) = false :=
  ((claim8_theorem 3 2 1).1 ⟨zero_le_one, le_refl 1⟩).1

/-- Claim C9: for a row holding at least one nonzero stored entry (as every
row of a valid model does), sampleSR returns a successor whose stored
transition probability is nonzero, paired with the aggregate reward stored
at (s, a) — the same value whichever successor was drawn. The uniform draw
is the explicit argument u, the only state the operation touches. -/
theorem claim9_theorem (m : SparseModel) (s a : Nat) (u : ℚ)
    (h : ∃ s1, s1 < m.S ∧ m.transitions_ a s s1 ≠ 0) :
    m.getTransitionProbability s a (m.sampleSR s a u).1 ≠ 0 ∧
      (m.sampleSR s a u).2 = m.getExpectedReward s a (m.sampleSR s a u).1 := by
  constructor
  · have hne := SparseModel.nonzeroRow_ne_nil h
    have hmem := @SparseModel.sampleLoop_mem u (SparseModel.nonzeroRow m s a) 0 hne
    rw [SparseModel.nonzeroRow_map_fst, List.mem_filter] at hmem
    have h2 := hmem.2
    simpa [SparseModel.getTransitionProbability, SparseModel.sampleSR] using h2
  · rfl

/-- Witness for C9 at the one-state model with a stored self loop. -/
theorem claim9_witness :
    mSamp.getTransitionProbability 0 0 (mSamp.sampleSR 0 0 (1 / 2)).1 ≠ 0 ∧
      (mSamp.sampleSR 0 0 (1 / 2)).2
        = mSamp.getExpectedReward 0 0 (mSamp.sampleSR 0 0 (1 / 2)).1 :=
  claim9_theorem mSamp 0 0 (1 / 2) ⟨0, Nat.zero_lt_one, by norm_num [mSamp]⟩

/-- Claim C7: loading a valid dense container through the dense
setTransitionFunction, or constructing through the dense constructor
(which delegates to the same setter), reproduces the container when read
back through getTransitionProbability: every returned value is within
tolerance of the original, and is exactly 0 wherever the original was
within tolerance of zero. -/
theorem claim7_theorem :
    (∀ (m : SparseModel) (t : Nat → Nat → Nat → ℚ),
      isProbability m.S m.A t = true →
      ∀ s, s < m.S → ∀ a, a < m.A → ∀ s1, s1 < m.S →
        |(m.setTransitionFunction t).1.getTransitionProbability s a s1 - t s a s1|
            ≤ equalToleranceSmall ∧
          (|t s a s1| ≤ equalToleranceSmall →
            (m.setTransitionFunction t).1.getTransitionProbability s a s1 = 0)) ∧
    (∀ (s a : Nat) (t r : Nat → Nat → Nat → ℚ) (d : ℚ),
      isErr (SparseModel.ofDense s a t r d) = false →
      ∀ st, st < s → ∀ ac, ac < a → ∀ s1, s1 < s →
        |(okOr (SparseModel.ofDense s a t r d) emptyModel).getTransitionProbability st ac s1
              - t st ac s1| ≤ equalToleranceSmall ∧
          (|t st ac s1| ≤ equalToleranceSmall →
            (okOr (SparseModel.ofDense s a t r d) emptyModel).getTransitionProbability st ac s1
              = 0)) := by
  constructor
  · intro m t hp s hs a ha s1 hs1
    rw [SparseModel.setTransitionFunction_valid hp]
    simp only [SparseModel.getTransitionProbability]
    rw [if_pos ⟨ha, hs, hs1⟩]
    exact ⟨sparsify_abs_sub_le _, fun hsm => sparsify_of_small hsm⟩
  · intro s a t r d h st hst ac hac s1 hs1
    obtain ⟨_, _, htr⟩ := SparseModel.ofDense_char h
    simp only [SparseModel.getTransitionProbability, htr]
    rw [if_pos ⟨hac, hst, hs1⟩]
    exact ⟨sparsify_abs_sub_le _, fun hsm => sparsify_of_small hsm⟩

/-- Witness for C7: the identity container on two states round-trips at
the triple (0, 0, 0). -/
theorem claim7_witness :
    |(mBase2.setTransitionFunction tId2).1.getTransitionProbability 0 0 0 - tId2 0 0 0|
      ≤ equalToleranceSmall :=
  (claim7_theorem.1 mBase2 tId2
    (by norm_num [isProbability, tId2, mBase2, checkEqualSmall, rowSum,
      List.range_succ, equalToleranceSmall, abs_div, abs_one])
    0 (by norm_num [mBase2]) 0 (by norm_num [mBase2]) 0 (by norm_num [mBase2])).1

/-- Counterexample to claim C1 as stated: tDrift is a perfectly valid
dense container (every row sums to exactly 1) and the dense setter accepts
it without raising, yet the stored row (0, 0) read back through
getTransitionProbability sums to 1 - 2e-6 — farther than the fixed
tolerance from 1 — because sparsification dropped the two entries lying
exactly at the tolerance. -/
theorem claim1_counterexample :
    (mBase3.setTransitionFunction tDrift).2 = false ∧
      ¬ (|rowSum 3 (fun s1 =>
          (mBase3.setTransitionFunction tDrift).1.getTransitionProbability 0 0 s1) - 1|
        ≤ equalToleranceSmall) := by
  constructor
  · norm_num [SparseModel.setTransitionFunction, isProbability, checkEqualSmall,
      rowSum, equalToleranceSmall, tDrift, List.range_succ, mBase3, abs_div, abs_one]
  · norm_num [SparseModel.setTransitionFunction, SparseModel.getTransitionProbability,
      sparsify, checkDifferentSmall, isProbability, checkEqualSmall, rowSum,
      equalToleranceSmall, tDrift, List.range_succ, mBase3, abs_div, abs_one]

/-- Claim C1 (amended): every probability stored through a validated entry
point lies in [0, 1]; rows of a model built by the model-copy constructor
sum to 1 within the tolerance; rows loaded through the dense
setTransitionFunction or the dense constructor sum to 1 within (S + 1)
times the tolerance — sparsification may drop up to S entries each of
magnitude at most the tolerance on top of the validation slack, so the
single-tolerance bound the claim states fails for the dense path (see the
counterexample) and (S + 1) times the tolerance is what the code
guarantees. -/
theorem claim1_theorem :
    (∀ (m : SparseModel) (t : Nat → Nat → Nat → ℚ),
      isProbability m.S m.A t = true →
      ∀ s, s < m.S → ∀ a, a < m.A →
        ((∀ s1, s1 < m.S →
            0 ≤ (m.setTransitionFunction t).1.getTransitionProbability s a s1 ∧
              (m.setTransitionFunction t).1.getTransitionProbability s a s1 ≤ 1) ∧
          |rowSum m.S (fun s1 =>
              (m.setTransitionFunction t).1.getTransitionProbability s a s1) - 1|
            ≤ (m.S + 1) * equalToleranceSmall)) ∧
    (∀ (s a : Nat) (t r : Nat → Nat → Nat → ℚ) (d : ℚ),
      isErr (SparseModel.ofDense s a t r d) = false →
      ∀ st, st < s → ∀ ac, ac < a →
        ((∀ s1, s1 < s →
            0 ≤ (okOr (SparseModel.ofDense s a t r d) emptyModel).getTransitionProbability
                st ac s1 ∧
              (okOr (SparseModel.ofDense s a t r d) emptyModel).getTransitionProbability
                st ac s1 ≤ 1) ∧
          |rowSum s (fun s1 =>
              (okOr (SparseModel.ofDense s a t r d) emptyModel).getTransitionProbability
                st ac s1) - 1|
            ≤ (s + 1) * equalToleranceSmall)) ∧
    (∀ (src : MDPSource),
      isErr (SparseModel.ofModel src) = false →
      ∀ s, s < src.S → ∀ a, a < src.A →
        ((∀ s1, s1 < src.S →
            0 ≤ (okOr (SparseModel.ofModel src) emptyModel).getTransitionProbability s a s1 ∧
              (okOr (SparseModel.ofModel src) emptyModel).getTransitionProbability s a s1 ≤ 1) ∧
          |rowSum src.S (fun s1 =>
              (okOr (SparseModel.ofModel src) emptyModel).getTransitionProbability s a s1) - 1|
            ≤ equalToleranceSmall)) := by
  refine ⟨?_, ?_, ?_⟩
  · intro m t hp s hs a ha
    have hinfo := isProbability_iff.mp hp s hs a ha
    have hfacts := SparseModel.sparsified_row_bound hinfo.1 hinfo.2
    have hget : ∀ s1, s1 < m.S →
        (m.setTransitionFunction t).1.getTransitionProbability s a s1
          = sparsify (t s a s1) := by
      intro s1 hs1
      rw [SparseModel.setTransitionFunction_valid hp]
      simp only [SparseModel.getTransitionProbability]
      rw [if_pos ⟨ha, hs, hs1⟩]
    constructor
    · intro s1 hs1
      rw [hget s1 hs1]
      exact hfacts.1 s1 hs1
    · have hrs : rowSum m.S (fun s1 =>
          (m.setTransitionFunction t).1.getTransitionProbability s a s1)
          = rowSum m.S (fun s1 => sparsify (t s a s1)) :=
        rowSum_congr (fun i hi => hget i hi)
      rw [hrs]
      exact hfacts.2
  · intro s a t r d h st hst ac hac
    obtain ⟨hp, _, htr⟩ := SparseModel.ofDense_char h
    have hinfo := isProbability_iff.mp hp st hst ac hac
    have hfacts := SparseModel.sparsified_row_bound hinfo.1 hinfo.2
    have hget : ∀ s1, s1 < s →
        (okOr (SparseModel.ofDense s a t r d) emptyModel).getTransitionProbability st ac s1
          = sparsify (t st ac s1) := by
      intro s1 hs1
      simp only [SparseModel.getTransitionProbability, htr]
      rw [if_pos ⟨hac, hst, hs1⟩]
    constructor
    · intro s1 hs1
      rw [hget s1 hs1]
      exact hfacts.1 s1 hs1
    · have hrs : rowSum s (fun s1 =>
          (okOr (SparseModel.ofDense s a t r d) emptyModel).getTransitionProbability st ac s1)
          = rowSum s (fun s1 => sparsify (t st ac s1)) :=
        rowSum_congr (fun i hi => hget i hi)
      rw [hrs]
      exact hfacts.2
  · intro src h s hs a ha
    obtain ⟨_, hrows⟩ := SparseModel.ofModel_conditions h
    have hrow := hrows s hs a ha
    have hok := SparseModel.ofModel_okOr h
    have hget : ∀ s1, s1 < src.S →
        (okOr (SparseModel.ofModel src) emptyModel).getTransitionProbability s a s1
          = sparsify (src.transProb s a s1) := by
      intro s1 hs1
      rw [hok]
      show copiedTransitions src a s s1 = _
      unfold copiedTransitions sparsifiedRow
      rw [if_pos ⟨hs, ha⟩, if_pos hs1]
    constructor
    · intro s1 hs1
      rw [hget s1 hs1]
      exact ⟨sparsify_nonneg (hrow.1 s1 hs1).1, sparsify_le_one (hrow.1 s1 hs1).2⟩
    · have hrs : rowSum src.S (fun s1 =>
          (okOr (SparseModel.ofModel src) emptyModel).getTransitionProbability s a s1)
          = rowSum src.S (sparsifiedRow src s a) := by
        refine rowSum_congr ?_
        intro i hi
        rw [hget i hi]
        unfold sparsifiedRow
        rw [if_pos hi]
      rw [hrs]
      have h2 := hrow.2
      rw [checkDifferentSmall_eq_false_iff] at h2
      rwa [abs_sub_comm] at h2

/-- Witness for C1 at the identity container on two states: the stored row
(0, 0) stays within the dense-path bound. -/
theorem claim1_witness :
    |rowSum mBase2.S (fun s1 =>
        (mBase2.setTransitionFunction tId2).1.getTransitionProbability 0 0 s1) - 1|
      ≤ (mBase2.S + 1) * equalToleranceSmall :=
  (claim1_theorem.1 mBase2 tId2
    (by norm_num [isProbability, tId2, mBase2, checkEqualSmall, rowSum,
      List.range_succ, equalToleranceSmall, abs_div, abs_one])
    0 (by norm_num [mBase2]) 0 (by norm_num [mBase2])).2

/-- Counterexample to claim C2 as stated: a source whose probabilities are
perfect — its single row is an exact probability-1 self loop — but whose
discount is 2 still makes the model-copy constructor raise
InvalidArgument, because the constructor validates the discount before
reading any probability. -/
theorem claim2_counterexample :
    (0 ≤ srcBadDisc.transProb 0 0 0 ∧ srcBadDisc.transProb 0 0 0 ≤ 1) ∧
      checkDifferentSmall 1 (rowSum srcBadDisc.S (sparsifiedRow srcBadDisc 0 0)) = false ∧
      isErr (SparseModel.ofModel srcBadDisc) = true := by
  refine ⟨by norm_num [srcBadDisc], ?_, ?_⟩
  · norm_num [srcBadDisc, sparsifiedRow, sparsify, checkDifferentSmall, checkEqualSmall,
      rowSum, List.range_succ, equalToleranceSmall, abs_div, abs_one]
  · norm_num [SparseModel.ofModel, srcBadDisc, isErr]

/-- Claim C2 (amended): the model-copy constructor raises InvalidArgument
exactly when the source discount lies outside [0, 1] (validated first), or
some probability read from the source lies outside [0, 1] (raised at that
triple), or the accumulated (sparsified) total of some (s, a) row differs
from 1 by more than the tolerance (raised after that row); on a source
passing all three it never raises. The claim as stated omitted the
discount condition — see the counterexample. -/
theorem claim2_theorem (src : MDPSource) :
    isErr (SparseModel.ofModel src) = true ↔
      (src.discount < 0 ∨ 1 < src.discount) ∨
        (∃ s, s < src.S ∧ ∃ a, a < src.A ∧ ∃ s1, s1 < src.S ∧
          (src.transProb s a s1 < 0 ∨ 1 < src.transProb s a s1)) ∨
        (∃ s, s < src.S ∧ ∃ a, a < src.A ∧
          checkDifferentSmall 1 (rowSum src.S (sparsifiedRow src s a)) = true) := by
  rw [SparseModel.isErr_ofModel_iff]
  constructor
  · rintro (hd | ⟨s, hs, a, ha, hrow⟩)
    · exact Or.inl hd
    · unfold RowOK at hrow
      rw [not_and_or] at hrow
      rcases hrow with hbad | hsum
      · push_neg at hbad
        obtain ⟨s1, hs1, hb⟩ := hbad
        refine Or.inr (Or.inl ⟨s, hs, a, ha, s1, hs1, ?_⟩)
        by_cases h0 : 0 ≤ src.transProb s a s1
        · exact Or.inr (hb h0)
        · exact Or.inl (not_le.mp h0)
      · refine Or.inr (Or.inr ⟨s, hs, a, ha, ?_⟩)
        simpa using hsum
  · rintro (hd | ⟨s, hs, a, ha, s1, hs1, hb⟩ | ⟨s, hs, a, ha, hsum⟩)
    · exact Or.inl hd
    · refine Or.inr ⟨s, hs, a, ha, ?_⟩
      intro hro
      have hin := hro.1 s1 hs1
      rcases hb with hb | hb
      · linarith [hin.1]
      · linarith [hin.2]
    · refine Or.inr ⟨s, hs, a, ha, ?_⟩
      intro hro
      rw [hro.2] at hsum
      exact Bool.false_ne_true hsum

/-- Counterexample to claim C3 as stated: in srcTiny the contribution at
the triple (0, 0, 0) is 1 times 1e-7 — within tolerance of zero, so by the
claim it must not be accumulated — yet the constructor gates on the reward
value alone (1, non-negligible) and stores 1e-7, while the rule the claim
words (claim3Reward) yields 0. -/
theorem claim3_counterexample :
    (SparseModel.ofModel srcTiny).map (fun B => B.rewards_ 0 0) = .ok (1 / 10000000) ∧
      claim3Reward srcTiny 0 0 = 0 ∧ ((1 : ℚ) / 10000000 ≠ 0) := by
  refine ⟨?_, ?_, by norm_num⟩
  · norm_num [SparseModel.ofModel, SparseModel.copyLoopS, SparseModel.copyLoopA,
      SparseModel.copyRow, SparseModel.copyRowLoop, srcTiny, checkDifferentSmall,
      checkEqualSmall, rowSum, List.range_succ, equalToleranceSmall, sparsify,
      abs_div, abs_one, Except.map]
  · norm_num [claim3Reward, srcTiny, checkDifferentSmall, checkEqualSmall, rowSum,
      List.range_succ, equalToleranceSmall, abs_div, abs_one]

/-- Claim C3 (amended): during model-to-model conversion the product r
times p for triple (s, a, s1) is accumulated into the stored (s, a) reward
entry exactly when r — the source expected reward for that triple — is
non-negligible; the gate tests r alone, not the product r times p (see the
counterexample). -/
theorem claim3_theorem (src : MDPSource) (s a : Nat)
    (hs : s < src.S) (ha : a < src.A)
    (h : isErr (SparseModel.ofModel src) = false) :
    (okOr (SparseModel.ofModel src) emptyModel).rewards_ s a =
      rowSum src.S (fun s1 =>
        if checkDifferentSmall 0 (src.expReward s a s1) = true
        then src.expReward s a s1 * src.transProb s a s1 else 0) := by
  rw [SparseModel.ofModel_okOr h]
  show copiedRewards src s a = _
  unfold copiedRewards
  rw [if_pos ⟨hs, ha⟩]
  rfl

/-- Witness for C3 at the one-state source with reward 5. -/
theorem claim3_witness :
    (okOr (SparseModel.ofModel srcW) emptyModel).rewards_ 0 0 =
      rowSum srcW.S (fun s1 =>
        if checkDifferentSmall 0 (srcW.expReward 0 0 s1) = true
        then srcW.expReward 0 0 s1 * srcW.transProb 0 0 s1 else 0) :=
  claim3_theorem srcW 0 0 Nat.zero_lt_one Nat.zero_lt_one (by
    norm_num [SparseModel.ofModel, SparseModel.copyLoopS, SparseModel.copyLoopA,
      SparseModel.copyRow, SparseModel.copyRowLoop, srcW, checkDifferentSmall,
      checkEqualSmall, rowSum, List.range_succ, equalToleranceSmall, sparsify,
      abs_div, abs_one, isErr])

/-- Counterexample to claim C10 as stated: mBig is a valid SparseModel
(entries in [0, 1], all nonzero entries non-negligible, row sums within
the tolerance of 1 — the successful conversion itself re-verifies all of
this), its reward at (0, 0) is 1e7, yet the copy stores
1e7 times the row sum 1 - 9e-7, i.e. 9999991, which differs from 1e7 by
9 — far beyond the tolerance the claim allows. -/
theorem claim10_counterexample :
    (SparseModel.ofModel mBig.toSource).map (fun B => B.rewards_ 0 0) = .ok 9999991 ∧
      checkEqualSmall (mBig.rewards_ 0 0) 9999991 = false := by
  constructor
  · norm_num [SparseModel.ofModel, SparseModel.copyLoopS, SparseModel.copyLoopA,
      SparseModel.copyRow, SparseModel.copyRowLoop, SparseModel.toSource, mBig,
      SparseModel.getTransitionProbability, SparseModel.getExpectedReward,
      SparseModel.getS, SparseModel.getA, SparseModel.getDiscount,
      checkDifferentSmall, checkEqualSmall, rowSum, List.range_succ,
      equalToleranceSmall, sparsify, abs_div, abs_one, Except.map]
  · norm_num [mBig, checkEqualSmall, equalToleranceSmall, abs_div, abs_one]

/-- Claim C10 (amended): copying a valid SparseModel A — discount in
[0, 1], probabilities in [0, 1], every nonzero stored entry non-negligible,
every stored row sum within the tolerance of 1 — through the model-copy
constructor never raises; every in-range transition probability reads back
identical; and, because the per-triple reward read from A is the (s, a)
aggregate independent of the successor, the stored reward collapses to 0
when A's reward is negligible and to A's reward times that row's
probability sum otherwise — within tolerance times (1 + |A's reward|) of
A's value, a relative bound rather than the absolute tolerance the claim
states (see the counterexample). -/
theorem claim10_theorem (A0 : SparseModel)
    (hd : 0 ≤ A0.discount_ ∧ A0.discount_ ≤ 1)
    (hrange : ∀ a, a < A0.A → ∀ s, s < A0.S → ∀ s1, s1 < A0.S →
      0 ≤ A0.transitions_ a s s1 ∧ A0.transitions_ a s s1 ≤ 1)
    (hnz : ∀ a, a < A0.A → ∀ s, s < A0.S → ∀ s1, s1 < A0.S →
      A0.transitions_ a s s1 ≠ 0 →
        checkDifferentSmall 0 (A0.transitions_ a s s1) = true)
    (hrow : ∀ s, s < A0.S → ∀ a, a < A0.A →
      |1 - rowSum A0.S (fun s1 => A0.transitions_ a s s1)| ≤ equalToleranceSmall) :
    isErr (SparseModel.ofModel A0.toSource) = false ∧
      (∀ a, a < A0.A → ∀ s, s < A0.S → ∀ s1, s1 < A0.S →
        (okOr (SparseModel.ofModel A0.toSource) emptyModel).getTransitionProbability s a s1
          = A0.getTransitionProbability s a s1) ∧
      (∀ s, s < A0.S → ∀ a, a < A0.A →
        |(okOr (SparseModel.ofModel A0.toSource) emptyModel).rewards_ s a - A0.rewards_ s a|
          ≤ equalToleranceSmall * (1 + |A0.rewards_ s a|)) := by
  have hspar : ∀ s a, s < A0.S → a < A0.A → ∀ s1,
      sparsifiedRow A0.toSource s a s1
        = (if s1 < A0.S then A0.transitions_ a s s1 else 0) := by
    intro s a hs ha s1
    unfold sparsifiedRow
    by_cases hs1 : s1 < A0.S
    · rw [if_pos hs1]
      show (if s1 < A0.S then sparsify (A0.transitions_ a s s1) else 0) = _
      rw [if_pos hs1]
      exact sparsify_eq_self (hnz a ha s hs s1 hs1)
    · rw [if_neg hs1]
      show (if s1 < A0.S then sparsify (A0.transitions_ a s s1) else 0) = 0
      rw [if_neg hs1]
  have hsum : ∀ s a, s < A0.S → a < A0.A →
      rowSum A0.toSource.S (sparsifiedRow A0.toSource s a)
        = rowSum A0.S (fun s1 => A0.transitions_ a s s1) := by
    intro s a hs ha
    refine rowSum_congr ?_
    intro i hi
    rw [hspar s a hs ha i]
    exact if_pos hi
  have hRowOK : ∀ s, s < A0.toSource.S → ∀ a, a < A0.toSource.A →
      RowOK A0.toSource s a := by
    intro s hs a ha
    constructor
    · intro s1 hs1
      exact hrange a ha s hs s1 hs1
    · rw [checkDifferentSmall_eq_false_iff, hsum s a hs ha]
      exact hrow s hs a ha
  have herr : isErr (SparseModel.ofModel A0.toSource) = false := by
    rw [SparseModel.ofModel_ok hd hRowOK]
    rfl
  have hok := SparseModel.ofModel_okOr herr
  refine ⟨herr, ?_, ?_⟩
  · intro a ha s hs s1 hs1
    rw [hok]
    show copiedTransitions A0.toSource a s s1 = A0.getTransitionProbability s a s1
    unfold copiedTransitions
    rw [if_pos ⟨hs, ha⟩, hspar s a hs ha s1, if_pos hs1]
    rfl
  · intro s hs a ha
    rw [hok]
    show |copiedRewards A0.toSource s a - A0.rewards_ s a| ≤ _
    unfold copiedRewards
    rw [if_pos ⟨hs, ha⟩]
    by_cases hcr : checkDifferentSmall 0 (A0.rewards_ s a) = true
    · have h1 : copiedReward A0.toSource s a
          = rowSum A0.S (fun s1 => A0.rewards_ s a * A0.transitions_ a s s1) := by
        unfold copiedReward
        refine rowSum_congr ?_
        intro i _
        show (if checkDifferentSmall 0 (A0.rewards_ s a) = true
            then A0.rewards_ s a * A0.transitions_ a s i else 0) = _
        rw [if_pos hcr]
      rw [h1, rowSum_mul]
      have hS := hrow s hs a ha
      have h2 : |rowSum A0.S (fun s1 => A0.transitions_ a s s1) - 1|
          ≤ equalToleranceSmall := by
        rwa [abs_sub_comm] at hS
      have he : A0.rewards_ s a * rowSum A0.S (fun s1 => A0.transitions_ a s s1)
          - A0.rewards_ s a
          = A0.rewards_ s a * (rowSum A0.S (fun s1 => A0.transitions_ a s s1) - 1) := by
        ring
      rw [he, abs_mul]
      have h3 : |A0.rewards_ s a| * |rowSum A0.S (fun s1 => A0.transitions_ a s s1) - 1|
          ≤ |A0.rewards_ s a| * equalToleranceSmall :=
        mul_le_mul_of_nonneg_left h2 (abs_nonneg _)
      have h4 : |A0.rewards_ s a| * equalToleranceSmall
          ≤ equalToleranceSmall * (1 + |A0.rewards_ s a|) := by
        have h5 := abs_nonneg (A0.rewards_ s a)
        have h6 := equalToleranceSmall_pos
        nlinarith
      linarith
    · have hcr0 : checkDifferentSmall 0 (A0.rewards_ s a) = false := by
        simpa using hcr
      have h1 : copiedReward A0.toSource s a = rowSum A0.toSource.S (fun _ => (0 : ℚ)) := by
        unfold copiedReward
        refine rowSum_congr ?_
        intro i _
        show (if checkDifferentSmall 0 (A0.rewards_ s a) = true
            then A0.rewards_ s a * A0.transitions_ a s i else 0) = 0
        rw [if_neg]
        rw [hcr0]
        exact Bool.false_ne_true
      rw [h1, rowSum_zero_fun]
      have h2 : |A0.rewards_ s a| ≤ equalToleranceSmall := by
        rw [checkDifferentSmall_eq_false_iff] at hcr0
        simpa [zero_sub, abs_neg] using hcr0
      have h3 := abs_nonneg (A0.rewards_ s a)
      have h4 := equalToleranceSmall_pos
      have h5 : |0 - A0.rewards_ s a| = |A0.rewards_ s a| := by
        rw [zero_sub, abs_neg]
      rw [h5]
      nlinarith

/-- Witness for C10 at the one-state self-loop model with reward 5: the
copy succeeds. -/
theorem claim10_witness : isErr (SparseModel.ofModel mOne.toSource) = false :=
  (claim10_theorem mOne ⟨zero_le_one, le_refl 1⟩
    (by
      intro a ha s hs s1 hs1
      simp only [mOne, Nat.lt_one_iff] at ha hs hs1
      subst ha
      subst hs
      subst hs1
      norm_num [mOne])
    (by
      intro a ha s hs s1 hs1
      simp only [mOne, Nat.lt_one_iff] at ha hs hs1
      subst ha
      subst hs
      subst hs1
      intro _
      norm_num [mOne, checkDifferentSmall, checkEqualSmall, equalToleranceSmall,
        abs_div, abs_one])
    (by
      intro s hs a ha
      simp only [mOne, Nat.lt_one_iff] at hs ha
      subst hs
      subst ha
      norm_num [mOne, rowSum, List.range_succ, equalToleranceSmall])).1

end AIMDP
